import Mathlib

/-!
Verification development for the github-exporter collection engine
(internal/collector/manager.go and internal/config/config.go).

Modelling conventions:
* Go float64 values are modelled by exact rationals: every numeric value
  appearing in the verified statements (small integers, sums of small
  integers, Unix timestamps) is exactly representable in float64, so the
  rational model agrees with the IEEE computation on those inputs.
* JSON documents are modelled as a parsed tree (the gjson library parses
  the response body lazily; the observable results are the same).  A
  response body is either a well-formed document or `Body.malformed`, the
  latter standing for text such as "not json" in which no gjson path
  finds a match.
* gjson query strings are modelled as pre-parsed segment lists (`GPath`);
  the segment forms are the ones the repository configuration and tests
  use: plain field access, array index, the collect form "#", and the
  first-match query form #(key=="value").
-/

/-- Parsed JSON tree, as produced by gjson from a well-formed body. -/
inductive Json where
  | null : Json
  | bool (b : Bool) : Json
  | num (q : ℚ) : Json
  | str (s : String) : Json
  | arr (elems : List Json) : Json
  | obj (fields : List (String × Json)) : Json

/-- Response body handed to the metric loop: a parsed document, or text
that is not JSON (gjson finds no match for any path in it). -/
inductive Body where
  | ok (j : Json) : Body
  | malformed : Body

/-- One segment of a gjson path. -/
inductive Seg where
  | fld (name : String) : Seg
  | idx (n : Nat) : Seg
  | all : Seg
  | queryFirst (key : String) (val : String) : Seg
deriving DecidableEq, Repr

/-- A gjson path: the pre-parsed form of the query string. -/
abbrev GPath := List Seg

/-- Lookup of a field in a JSON object (first occurrence wins). -/
def objLookup : List (String × Json) → String → Option Json
  | [], _ => none
  | (k, v) :: rest, s => if k = s then some v else objLookup rest s

/-- Test used by the query segment: the element is an object whose field
`key` is the string `val`. -/
def jsonFieldEq (j : Json) (key val : String) : Bool :=
  match j with
  | Json.obj fs =>
    match objLookup fs key with
    | some (Json.str s) => decide (s = val)
    | _ => false
  | _ => false

/-- Evaluation of a gjson path against a parsed document.  Mirrors the
gjson result semantics for the supported segment forms: a missing path
yields no result (`none`), "#" at the end of a path on an array yields
the element count, "#" in the middle projects the rest of the path over
every element keeping only the matches, and #(key=="val") selects the
first matching element. -/
def evalPath : GPath → Json → Option Json
  | [], j => some j
  | Seg.fld s :: rest, Json.obj fs =>
    match objLookup fs s with
    | some v => evalPath rest v
    | none => none
  | Seg.idx n :: rest, Json.arr xs =>
    match xs.get? n with
    | some v => evalPath rest v
    | none => none
  | Seg.all :: [], Json.arr xs => some (Json.num xs.length)
  | Seg.all :: (seg :: rest), Json.arr xs =>
    some (Json.arr (xs.filterMap (evalPath (seg :: rest))))
  | Seg.queryFirst k v :: rest, Json.arr xs =>
    match xs.find? (fun e => jsonFieldEq e k v) with
    | some e => evalPath rest e
    | none => none
  | _ :: _, _ => none

/-- Model of gjson.Get on a response body: the extraction result is
either a JSON value or no match (`none`). -/
def gjsonGet (body : Body) (path : GPath) : Option Json :=
  match body with
  | Body.ok j => evalPath path j
  | Body.malformed => none

/-- Decimal digit test and value, used by the numeric string parsers. -/
def digitVal (c : Char) : Nat := c.toNat - 48

/-- Longest prefix of decimal digits of a character list. -/
def takeDigits : List Char → List Nat × List Char
  | [] => ([], [])
  | c :: cs =>
    if c.isDigit then
      let (ds, rest) := takeDigits cs
      (digitVal c :: ds, rest)
    else ([], c :: cs)

/-- Value of a digit list read most-significant first. -/
def natOfDigits (ds : List Nat) : Nat :=
  ds.foldl (fun acc d => 10 * acc + d) 0

/-- Model of strconv.ParseFloat on the decimal forms
[+|-]digits[.digits][e|E[+|-]digits]: the exact rational value, or
`none` when the string is not a number in that form.  (The Go parser
additionally accepts hexadecimal floats, infinities, NaN and digit
group separators; no such string appears in the verified statements.) -/
def parseGoFloat (s : String) : Option ℚ :=
  let cs := s.data
  let (sign, cs) : ℚ × List Char :=
    match cs with
    | '+' :: rest => (1, rest)
    | '-' :: rest => (-1, rest)
    | _ => (1, cs)
  let (intDs, cs) := takeDigits cs
  let (fracDs, cs) : List Nat × List Char :=
    match cs with
    | '.' :: rest => takeDigits rest
    | _ => ([], cs)
  if intDs = [] ∧ fracDs = [] then none
  else
    let mant : ℚ := (natOfDigits intDs : ℚ) +
      (natOfDigits fracDs : ℚ) / ((10 : ℚ) ^ fracDs.length)
    match cs with
    | [] => some (sign * mant)
    | e :: rest =>
      if e = 'e' ∨ e = 'E' then
        let (esign, rest) : Int × List Char :=
          match rest with
          | '+' :: r2 => (1, r2)
          | '-' :: r2 => (-1, r2)
          | _ => (1, rest)
        let (expDs, rest) := takeDigits rest
        if expDs = [] ∨ rest ≠ [] then none
        else some (sign * mant * (10 : ℚ) ^ (esign * (natOfDigits expDs : Int)))
      else none

/-- Float coercion of a gjson result, following gjson Result.Float:
no match and null give 0, booleans give 1 or 0, numbers give their
value, strings are parsed with ParseFloat (unparseable gives 0), and
array or object results give 0. -/
def jsonFloat : Option Json → ℚ
  | none => 0
  | some Json.null => 0
  | some (Json.bool b) => if b then 1 else 0
  | some (Json.num q) => q
  | some (Json.str s) => (parseGoFloat s).getD 0
  | some (Json.arr _) => 0
  | some (Json.obj _) => 0

/-- Float coercion of one array element (gjson Result.Float on the
element). -/
def elemFloat (j : Json) : ℚ := jsonFloat (some j)

/-- Stringification of a gjson result, following gjson Result.String:
no match and null give "", booleans give "false"/"true", strings give
their contents, numbers render in decimal (integers exactly; the
verified statements only depend on integer renderings), arrays and
objects render as their raw JSON text (abbreviated here, unused by the
verified statements). -/
def jsonString : Option Json → String
  | none => ""
  | some Json.null => ""
  | some (Json.bool b) => if b then "true" else "false"
  | some (Json.num q) =>
    if q.den = 1 then
      (if q.num < 0 then "-" ++ toString q.num.natAbs else toString q.num.natAbs)
    else toString q.num.natAbs ++ "/" ++ toString q.den
  | some (Json.str s) => s
  | some (Json.arr _) => "[json array]"
  | some (Json.obj _) => "[json object]"

/-- Reads exactly `n` decimal digits, returning their value. -/
def grabDigits : Nat → Nat → List Char → Option (Nat × List Char)
  | 0, acc, cs => some (acc, cs)
  | n + 1, acc, c :: cs =>
    if c.isDigit then grabDigits n (10 * acc + digitVal c) cs else none
  | _ + 1, _, [] => none

/-- Leap year test of the proleptic Gregorian calendar. -/
def isLeap (y : Nat) : Bool :=
  (y % 4 = 0 ∧ y % 100 ≠ 0) ∨ y % 400 = 0

/-- Number of days of month `m` (1..12) in year `y`. -/
def daysInMonth (y m : Nat) : Nat :=
  if m = 2 then (if isLeap y then 29 else 28)
  else if m = 4 ∨ m = 6 ∨ m = 9 ∨ m = 11 then 30
  else 31

/-- Days from 1970-01-01 to the civil date y-m-d (Hinnant algorithm,
with truncating division as in the reference formulation; RFC3339 years
are nonnegative). -/
def daysFromCivil (y : Int) (m d : Nat) : Int :=
  let y2 : Int := if m ≤ 2 then y - 1 else y
  let era : Int := (if 0 ≤ y2 then y2 else y2 - 399).tdiv 400
  let yoe : Int := y2 - era * 400
  let mp : Int := if 2 < m then (m : Int) - 3 else (m : Int) + 9
  let doy : Int := (153 * mp + 2).tdiv 5 + (d : Int) - 1
  let doe : Int := yoe * 365 + yoe.tdiv 4 - yoe.tdiv 100 + doy
  era * 146097 + doe - 719468

/-- Parses the timezone tail of an RFC3339 string: "Z", or a +hh:mm or
-hh:mm offset, returning the offset east of UTC in seconds. -/
def parseOffset : List Char → Option Int
  | ['Z'] => some 0
  | c :: cs =>
    if c = '+' ∨ c = '-' then
      match grabDigits 2 0 cs with
      | some (oh, ':' :: cs2) =>
        match grabDigits 2 0 cs2 with
        | some (om, []) =>
          if oh ≤ 23 ∧ om ≤ 59 then
            some ((if c = '-' then -1 else 1) * ((oh : Int) * 3600 + om * 60))
          else none
        | _ => none
      | _ => none
    else none
  | [] => none

/-- Model of time.Parse with the RFC3339 layout followed by Unix(): the
Unix-epoch seconds of a string of the form
yyyy-mm-ddThh:mm:ss[.fff](Z or +hh:mm or -hh:mm), with the component
range checks the Go time package performs (month 1..12, day within the
month, hour at most 23, minute and second at most 59); fractional
seconds are accepted and ignored by Unix().  Any other string gives
`none` (a parse error in Go). -/
def rfc3339ToUnix (s : String) : Option Int :=
  match grabDigits 4 0 s.data with
  | some (y, '-' :: cs1) =>
    (match grabDigits 2 0 cs1 with
     | some (mo, '-' :: cs2) =>
       (match grabDigits 2 0 cs2 with
        | some (d, 'T' :: cs3) =>
          (match grabDigits 2 0 cs3 with
           | some (h, ':' :: cs4) =>
             (match grabDigits 2 0 cs4 with
              | some (mi, ':' :: cs5) =>
                (match grabDigits 2 0 cs5 with
                 | some (sec, cs6) =>
                   let cs7 : Option (List Char) :=
                     match cs6 with
                     | '.' :: cs6a =>
                       (match takeDigits cs6a with
                        | ([], _) => none
                        | (_ :: _, rest) => some rest)
                     | _ => some cs6
                   (match cs7 with
                    | some csz =>
                      (match parseOffset csz with
                       | some off =>
                         if 1 ≤ mo ∧ mo ≤ 12 ∧ 1 ≤ d ∧ d ≤ daysInMonth y mo ∧
                            h ≤ 23 ∧ mi ≤ 59 ∧ sec ≤ 59 then
                           some (daysFromCivil (y : Int) mo d * 86400 +
                             (h : Int) * 3600 + (mi : Int) * 60 + (sec : Int) - off)
                         else none
                       | none => none)
                    | none => none)
                 | none => none)
              | _ => none)
           | _ => none)
        | _ => none)
     | _ => none)
  | _ => none

/-- Value type tokens of a metric configuration.  Modelled from the
spec: the ValueType field and its TypeFloat/TypeDate constants are
referenced by manager.go and the tests but their declaration is not
among the provided sources; the spec gives value_type as one of
numeric (the default) and date. -/
def typeFloat : String := "float"

/-- Value type token selecting the timestamp interpretation. -/
def typeDate : String := "date"

/-- Aggregation token for sums (the default). -/
def aggregateSum : String := "sum"

/-- Aggregation token for element counts. -/
def aggregateCount : String := "count"

/-- Aggregation token for maxima. -/
def aggregateMax : String := "max"

/-- One configured extraction rule (config.MetricConfig).  The path
strings of the Go configuration appear here in pre-parsed form. -/
structure MetricConfig where
  name : String
  path : GPath
  help : String
  valueType : String
  aggregate : String
  labels : List (String × GPath)
deriving DecidableEq

/-- Declared label names of a metric (the keys of the Labels map; a Go
map has no duplicate keys, which statements assume where it matters). -/
def labelNames (metric : MetricConfig) : List String :=
  metric.labels.map (fun e => e.1)

/-- Lookup of the gjson path declared for a label name. -/
def labelPath : List (String × GPath) → String → Option GPath
  | [], _ => none
  | (k, p) :: rest, s => if k = s then some p else labelPath rest s

/-- One configured HTTP call (config.RequestConfig). -/
structure RequestConfig where
  apiPath : String
  method : String
  body : String
  metrics : List MetricConfig

/-- The resolved configuration object (config.Config), restricted to
the fields the collection engine reads. -/
structure Config where
  githubAPIURL : String
  token : String
  requests : List RequestConfig

/-- Sequence reduction of parseValue: the switch on the aggregation
token over the elements of an array result (manager.go lines 222-244).
count returns the element count, max folds a running maximum started at
the first element, and every other token - sum, the empty token, or an
unrecognized one - falls through to the sum loop. -/
def aggregateList (agg : String) (xs : List Json) : ℚ :=
  if agg = aggregateCount then (xs.length : ℚ)
  else if agg = aggregateMax then
    match xs with
    | [] => 0
    | y :: ys => ys.foldl (fun v r => if elemFloat r > v then elemFloat r else v) (elemFloat y)
  else xs.foldl (fun v r => v + elemFloat r) 0

/-- Value resolution (manager.go parseValue, lines 203-245): evaluate
the metric path, and for a non-array result apply the value
interpretation (date: RFC3339 strings to Unix seconds, other scalars to
0; numeric: gjson float coercion), while an array result goes through
the aggregation switch. -/
def parseValue (body : Body) (metric : MetricConfig) : ℚ :=
  let result := gjsonGet body metric.path
  match result with
  | some (Json.arr xs) => aggregateList metric.aggregate xs
  | _ =>
    if metric.valueType = typeDate then
      match result with
      | some (Json.str s) =>
        (match rfc3339ToUnix s with
         | some t => (t : ℚ)
         | none => 0)
      | _ => 0
    else jsonFloat result

/-- Character class of prometheus label names (and, with the colon
added, metric names). -/
def promNameChar (colonOK : Bool) (first : Bool) (c : Char) : Bool :=
  (('a' ≤ c ∧ c ≤ 'z') ∨ ('A' ≤ c ∧ c ≤ 'Z') ∨ c = '_' ∨
   (colonOK ∧ c = ':') ∨ (¬ first ∧ '0' ≤ c ∧ c ≤ '9'))

/-- Validity of a prometheus metric name, as checked by
prometheus.NewDesc. -/
def validMetricName (s : String) : Bool :=
  match s.data with
  | [] => false
  | c :: cs => promNameChar true true c ∧ cs.all (promNameChar true false)

/-- Validity of a prometheus label name, as checked by
prometheus.NewDesc: the name character class, and the double
underscore space is reserved. -/
def validLabelName (s : String) : Bool :=
  (match s.data with
   | [] => false
   | c :: cs => promNameChar false true c && cs.all (promNameChar false false)) &&
  ! (match s.data with
     | c1 :: c2 :: _ => c1 = '_' && c2 = '_'
     | _ => false)

/-- Metric descriptor (prometheus.Desc), restricted to what the engine
observes: identity, help, the variable label names in order, and
whether NewDesc recorded a construction error (it does so for an
invalid metric name, an invalid label name, or duplicate label names;
NewConstMetric later refuses a descriptor carrying an error). -/
structure Desc where
  fqName : String
  help : String
  variableLabels : List String
  invalid : Bool
deriving DecidableEq

/-- Model of prometheus.NewDesc for variable labels and no constant
labels. -/
def newDesc (name help : String) (labelKeys : List String) : Desc :=
  { fqName := name
    help := help
    variableLabels := labelKeys
    invalid := ¬ (validMetricName name ∧ labelKeys.all validLabelName ∧ labelKeys.Nodup) }

/-- Registry entry (collector.MetricInfo): the descriptor, the sorted
label keys, and the metric configuration. -/
structure MetricInfo where
  desc : Desc
  labelKeys : List String
  config : MetricConfig
deriving DecidableEq

/-- Sorting used for label keys; models sort.Strings (the result of
sorting is determined by the multiset of keys, so the choice of sorting
algorithm is immaterial). -/
def sortStrings (l : List String) : List String :=
  List.insertionSort (fun a b => a ≤ b) l

/-- Label keys derived for one metric (manager.go initDescriptors,
lines 52-57): the reserved key "api_path" together with every declared
label name, sorted. -/
def mkLabelKeys (metric : MetricConfig) : List String :=
  sortStrings ("api_path" :: labelNames metric)

/-- Registry entry derived for one metric (manager.go initDescriptors,
lines 59-70). -/
def mkInfo (metric : MetricConfig) : MetricInfo :=
  { desc := newDesc metric.name metric.help (mkLabelKeys metric)
    labelKeys := mkLabelKeys metric
    config := metric }

/-- Association list standing for the Go map m.metrics. -/
abbrev Registry := List (String × MetricInfo)

/-- Map read m.metrics[name]. -/
def lookupName : Registry → String → Option MetricInfo
  | [], _ => none
  | (k, v) :: rest, s => if k = s then some v else lookupName rest s

/-- Map write m.metrics[name] = info: replaces the entry when the key
is present, appends it otherwise (Go map assignment semantics). -/
def insertGo (m : Registry) (k : String) (v : MetricInfo) : Registry :=
  if (lookupName m k).isSome then
    m.map (fun e => if e.1 = k then (k, v) else e)
  else m ++ [(k, v)]

/-- Descriptor registry built at initialization (manager.go
initDescriptors, lines 49-73): one nested loop over requests and their
metrics, writing each derived entry into the map under the metric
name. -/
def initDescriptors (cfg : Config) : Registry :=
  cfg.requests.foldl
    (fun m req =>
      req.metrics.foldl (fun m metric => insertGo m metric.name (mkInfo metric)) m)
    []

/-- All metric declarations in processing order (requests in order,
each requests metrics in order). -/
def flatDecls (cfg : Config) : List MetricConfig :=
  cfg.requests.foldl (fun acc req => acc ++ req.metrics) []

/-- The most recently processed declaration carrying a given name. -/
def lastDecl : List MetricConfig → String → Option MetricConfig
  | [], _ => none
  | mc :: rest, k =>
    match lastDecl rest k with
    | some d => some d
    | none => if mc.name = k then some mc else none

/-- One emitted sample: descriptor, ordered label values, gauge value. -/
structure Sample where
  desc : Desc
  labelValues : List String
  value : ℚ
deriving DecidableEq

/-- Model of prometheus.NewConstMetric for a gauge: fails on a
descriptor that carries a construction error or on a label value list
whose length differs from the descriptor label list. -/
def newConstMetric (desc : Desc) (value : ℚ) (labelValues : List String) : Option Sample :=
  if desc.invalid then none
  else if labelValues.length = desc.variableLabels.length then
    some { desc := desc, labelValues := labelValues, value := value }
  else none

/-- Label value resolution (manager.go fetchAndCollect, lines 171-184):
one value per label key in order; the reserved key "api_path" always
receives the request identity path, every other key is looked up in the
metric label map and its gjson path stringified, and a key without a
declared path degrades to the empty string. -/
def resolveLabels (body : Body) (labels : List (String × GPath))
    (labelKeys : List String) (apiPath : String) : List String :=
  labelKeys.map (fun key =>
    if key = "api_path" then apiPath
    else
      match labelPath labels key with
      | some jsonPath => jsonString (gjsonGet body jsonPath)
      | none => "")

/-- Per-metric step of the emission loop (manager.go fetchAndCollect,
lines 162-200): unknown names are skipped, otherwise the value and
label values are computed and NewConstMetric decides whether a sample
reaches the channel. -/
def sampleFor (metricsMap : Registry) (body : Body) (apiPath : String)
    (metric : MetricConfig) : Option Sample :=
  match lookupName metricsMap metric.name with
  | none => none
  | some info =>
    let val := parseValue body metric
    let labelValues := resolveLabels body metric.labels info.labelKeys apiPath
    newConstMetric info.desc val labelValues

/-- Outcome of one fetch, covering every early-return of
fetchAndCollect before the metric loop: request construction failure,
transport failure, or a response with a status code and a body read
that may itself fail. -/
inductive FetchOutcome where
  | reqError : FetchOutcome
  | transportError : FetchOutcome
  | response (status : Nat) (bodyRead : Option Body) : FetchOutcome

/-- Fetch outcomes after which the request is skipped for the pass. -/
def isFailure : FetchOutcome → Prop
  | FetchOutcome.reqError => True
  | FetchOutcome.transportError => True
  | FetchOutcome.response status bodyRead =>
    status < 200 ∨ 300 ≤ status ∨ bodyRead = none

instance : DecidablePred isFailure := fun o =>
  match o with
  | FetchOutcome.reqError => isTrue trivial
  | FetchOutcome.transportError => isTrue trivial
  | FetchOutcome.response _ none => isTrue (Or.inr (Or.inr rfl))
  | FetchOutcome.response status (some _) =>
    if h1 : status < 200 then isTrue (Or.inl h1)
    else if h2 : 300 ≤ status then isTrue (Or.inr (Or.inl h2))
    else isFalse (fun h => by
      rcases h with h | h | h
      · exact h1 h
      · exact h2 h
      · exact Option.some_ne_none _ h)

/-- Samples one request contributes to a pass (manager.go
fetchAndCollect, lines 99-200): nothing on a failed fetch, a non-2xx
status, or a failed body read; otherwise one optional sample per
configured metric.  Request URL, method and headers do not influence
the emitted samples and are omitted. -/
def fetchAndCollect (metricsMap : Registry) (reqCfg : RequestConfig)
    (outcome : FetchOutcome) : List Sample :=
  match outcome with
  | FetchOutcome.reqError => []
  | FetchOutcome.transportError => []
  | FetchOutcome.response status bodyRead =>
    if status < 200 ∨ 300 ≤ status then []
    else
      match bodyRead with
      | none => []
      | some body => reqCfg.metrics.filterMap (sampleFor metricsMap body reqCfg.apiPath)

/-- All samples of one collection pass, request contributions in
configuration order (the Go channel interleaves the concurrent
contributions nondeterministically; the multiset of samples is what the
sink observes, and it is order-independent here). -/
def collectPass (metricsMap : Registry) (reqs : List RequestConfig)
    (outcomes : List FetchOutcome) : List Sample :=
  (reqs.zip outcomes).flatMap (fun ro => fetchAndCollect metricsMap ro.1 ro.2)

/-- The manager: configuration plus the descriptor registry
(collector.Manager; the HTTP client and token only affect fetching,
which enters the model through FetchOutcome). -/
structure Manager where
  cfg : Config
  metrics : Registry

/-- Model of collector.NewManager: builds the registry once. -/
def newManager (cfg : Config) : Manager :=
  { cfg := cfg, metrics := initDescriptors cfg }

/-- One Collect invocation: emits the samples of the pass and leaves
the manager untouched (Collect only reads m.cfg and m.metrics). -/
def collect (m : Manager) (outcomes : List FetchOutcome) : List Sample × Manager :=
  (collectPass m.metrics m.cfg.requests outcomes, m)

/-- A whole sequence of collection passes, threading the manager
state. -/
def runPasses (m : Manager) : List (List FetchOutcome) → List (List Sample) × Manager
  | [] => ([], m)
  | os :: rest =>
    let (samples, m2) := collect m os
    let (later, m3) := runPasses m2 rest
    (samples :: later, m3)

/-! Helper lemmas about the aggregation folds. -/

theorem foldl_add_elemFloat (xs : List Json) (a : ℚ) :
    xs.foldl (fun v r => v + elemFloat r) a = a + (xs.map elemFloat).sum := by
  induction xs generalizing a with
  | nil => simp
  | cons y ys ih => simp [ih, add_assoc]

theorem foldl_if_gt_eq_foldl_max (xs : List Json) (a : ℚ) :
    xs.foldl (fun v r => if elemFloat r > v then elemFloat r else v) a
      = (xs.map elemFloat).foldl max a := by
  induction xs generalizing a with
  | nil => rfl
  | cons y ys ih =>
    simp only [List.foldl_cons, List.map_cons, ih]
    congr 1
    rcases le_or_lt (elemFloat y) a with h | h
    · rw [if_neg (not_lt.mpr h), max_eq_left h]
    · rw [if_pos h, max_eq_right h.le]

theorem le_foldl_max (xs : List ℚ) (a : ℚ) : a ≤ xs.foldl max a := by
  induction xs generalizing a with
  | nil => exact le_refl a
  | cons y ys ih => exact le_trans (le_max_left a y) (ih (max a y))

theorem mem_le_foldl_max (xs : List ℚ) (a b : ℚ) (hb : b ∈ xs) :
    b ≤ xs.foldl max a := by
  induction xs generalizing a with
  | nil => cases hb
  | cons y ys ih =>
    rcases List.mem_cons.mp hb with rfl | h
    · exact le_trans (le_max_right a b) (le_foldl_max ys (max a b))
    · exact ih (max a y) h

theorem foldl_max_mem (xs : List ℚ) (a : ℚ) :
    xs.foldl max a = a ∨ xs.foldl max a ∈ xs := by
  induction xs generalizing a with
  | nil => exact Or.inl rfl
  | cons y ys ih =>
    rcases ih (max a y) with h | h
    · rcases le_or_lt y a with hy | hy
      · exact Or.inl (by rw [List.foldl_cons, h, max_eq_left hy])
      · exact Or.inr (by rw [List.foldl_cons, h, max_eq_right hy.le]; exact List.mem_cons_self y ys)
    · exact Or.inr (List.mem_cons_of_mem y h)

/-! Claim theorems for value resolution. -/

/-- C1: for every document and metric whose path selects a sequence,
the aggregation token reduces it: count gives the element count, max
gives the maximum of the float-coerced elements (0 when empty), and
every other token - sum, the default empty token, or an unrecognized
one - gives the sum of the float-coerced elements (0 when empty). -/
theorem parseValue_array_aggregation
    (body : Body) (metric : MetricConfig) (xs : List Json)
    (h : gjsonGet body metric.path = some (Json.arr xs)) :
    (metric.aggregate = aggregateCount → parseValue body metric = (xs.length : ℚ)) ∧
    (metric.aggregate = aggregateMax →
      (xs = [] → parseValue body metric = 0) ∧
      (∀ y ∈ xs, elemFloat y ≤ parseValue body metric) ∧
      (xs ≠ [] → parseValue body metric ∈ xs.map elemFloat)) ∧
    (metric.aggregate ≠ aggregateCount → metric.aggregate ≠ aggregateMax →
      parseValue body metric = (xs.map elemFloat).sum) := by
  have hpv : parseValue body metric = aggregateList metric.aggregate xs := by
    simp [parseValue, h]
  refine ⟨fun hc => ?_, fun hm => ?_, fun hc hm => ?_⟩
  · rw [hpv]; unfold aggregateList; rw [if_pos hc]
  · have hcm : metric.aggregate ≠ aggregateCount := by
      rw [hm]; decide
    cases xs with
    | nil =>
      have hpv2 : parseValue body metric = 0 := by
        rw [hpv]; unfold aggregateList; rw [if_neg hcm, if_pos hm]
      exact ⟨fun _ => hpv2, by simp, fun hne => absurd rfl hne⟩
    | cons y ys =>
      have hpv2 : parseValue body metric = (ys.map elemFloat).foldl max (elemFloat y) := by
        rw [hpv]; unfold aggregateList; rw [if_neg hcm, if_pos hm]
        exact foldl_if_gt_eq_foldl_max ys (elemFloat y)
      refine ⟨fun hemp => absurd hemp (List.cons_ne_nil y ys), ?_, fun _ => ?_⟩
      · intro z hz
        rw [hpv2]
        rcases List.mem_cons.mp hz with rfl | hz2
        · exact le_foldl_max _ _
        · exact mem_le_foldl_max _ _ _ (List.mem_map_of_mem elemFloat hz2)
      · rw [hpv2]
        rcases foldl_max_mem (ys.map elemFloat) (elemFloat y) with he | he
        · rw [he, List.map_cons]; exact List.mem_cons_self _ _
        · rw [List.map_cons]; exact List.mem_cons_of_mem _ he
  · rw [hpv]; unfold aggregateList
    rw [if_neg hc, if_neg hm, foldl_add_elemFloat, zero_add]

/-- Demo document and metric for the end-to-end sum scenario of the
spec: three repositories with 10, 20 and 30 stars. -/
def starBody : Body :=
  Body.ok (Json.arr
    [Json.obj [("stargazers_count", Json.num 10)],
     Json.obj [("stargazers_count", Json.num 20)],
     Json.obj [("stargazers_count", Json.num 30)]])

/-- Metric summing stargazers_count over every element. -/
def starMetric : MetricConfig :=
  { name := "github_stars_total"
    path := [Seg.all, Seg.fld "stargazers_count"]
    help := "Sum of all stars"
    valueType := typeFloat
    aggregate := aggregateSum
    labels := [] }

/-- Witness for C1: the end-to-end sum scenario resolves to 60. -/
theorem parseValue_array_aggregation_witness :
    parseValue starBody starMetric = 60 := by
  have h := (parseValue_array_aggregation starBody starMetric
    [Json.num 10, Json.num 20, Json.num 30] rfl).2.2 (by decide) (by decide)
  rw [h]; simp [elemFloat, jsonFloat]; norm_num

/-- Metric reading field "a" under the numeric interpretation. -/
def fieldAMetric : MetricConfig :=
  { name := "m"
    path := [Seg.fld "a"]
    help := ""
    valueType := typeFloat
    aggregate := aggregateSum
    labels := [] }

/-- Counterexample to C2 as stated: under the numeric interpretation a
non-numeric scalar does not always yield 0.  The boolean scalar true
coerces to 1 and the string scalar "42" coerces to 42 (gjson
Result.Float semantics, reached through result.Float() in
parseValue). -/
theorem parseValue_scalar_claim_counterexample :
    (parseValue (Body.ok (Json.obj [("a", Json.bool true)])) fieldAMetric = 1 ∧
      parseValue (Body.ok (Json.obj [("a", Json.bool true)])) fieldAMetric ≠ 0) ∧
    (parseValue (Body.ok (Json.obj [("a", Json.str "42")])) fieldAMetric = 42 ∧
      parseValue (Body.ok (Json.obj [("a", Json.str "42")])) fieldAMetric ≠ 0) := by
  have h1 : parseValue (Body.ok (Json.obj [("a", Json.bool true)])) fieldAMetric = 1 := by
    simp [parseValue, fieldAMetric, gjsonGet, evalPath, objLookup, typeFloat, typeDate,
      jsonFloat]
  have h2 : parseValue (Body.ok (Json.obj [("a", Json.str "42")])) fieldAMetric = 42 := by
    simp [parseValue, fieldAMetric, gjsonGet, evalPath, objLookup, typeFloat, typeDate,
      jsonFloat, parseGoFloat, takeDigits, digitVal, natOfDigits]
  refine ⟨⟨h1, ?_⟩, ⟨h2, ?_⟩⟩
  · rw [h1]; norm_num
  · rw [h2]; norm_num

/-- C2 (amended): for a path selecting a single scalar, the numeric
interpretation returns a number exactly, 0 for null, the gjson float
coercion for booleans (1 for true, 0 for false) and strings (their
parsed decimal value, 0 when unparseable); the timestamp interpretation
returns the Unix seconds of an RFC3339-parseable string and 0 for every
other scalar, never failing the pass. -/
theorem parseValue_scalar_resolution
    (body : Body) (metric : MetricConfig) (j : Json)
    (h : gjsonGet body metric.path = some j)
    (hscalar : ∀ ys, j ≠ Json.arr ys) :
    (metric.valueType ≠ typeDate →
      (∀ q, j = Json.num q → parseValue body metric = q) ∧
      (j = Json.null → parseValue body metric = 0) ∧
      (∀ b, j = Json.bool b → parseValue body metric = (if b then 1 else 0)) ∧
      (∀ s, j = Json.str s → parseValue body metric = (parseGoFloat s).getD 0)) ∧
    (metric.valueType = typeDate →
      (∀ s t, j = Json.str s → rfc3339ToUnix s = some t →
        parseValue body metric = (t : ℚ)) ∧
      (∀ s, j = Json.str s → rfc3339ToUnix s = none → parseValue body metric = 0) ∧
      ((∀ s, j ≠ Json.str s) → parseValue body metric = 0)) := by
  constructor
  · intro hvt
    refine ⟨fun q hq => ?_, fun hq => ?_, fun b hq => ?_, fun s hq => ?_⟩ <;>
      subst hq <;> simp [parseValue, h, if_neg hvt, jsonFloat]
  · intro hvt
    refine ⟨fun s t hq hrfc => ?_, fun s hq hrfc => ?_, fun hns => ?_⟩
    · subst hq; simp [parseValue, h, if_pos hvt, hrfc]
    · subst hq; simp [parseValue, h, if_pos hvt, hrfc]
    · cases j with
      | str s => exact absurd rfl (hns s)
      | arr ys => exact absurd rfl (hscalar ys)
      | null => simp [parseValue, h, if_pos hvt]
      | bool b => simp [parseValue, h, if_pos hvt]
      | num q => simp [parseValue, h, if_pos hvt]
      | obj fs => simp [parseValue, h, if_pos hvt]

/-- Single-scalar demo document of the tests: a user with 42
followers. -/
def followersBody : Body := Body.ok (Json.obj [("followers", Json.num 42)])

/-- Metric reading the followers field numerically. -/
def followersMetric : MetricConfig :=
  { name := "github_followers"
    path := [Seg.fld "followers"]
    help := "Total followers"
    valueType := typeFloat
    aggregate := aggregateSum
    labels := [] }

/-- Timestamp demo document of the tests. -/
def createdAtBody : Body :=
  Body.ok (Json.obj [("created_at", Json.str "2024-01-15T10:30:00Z")])

/-- Metric reading created_at under the timestamp interpretation. -/
def createdAtMetric : MetricConfig :=
  { name := "m"
    path := [Seg.fld "created_at"]
    help := ""
    valueType := typeDate
    aggregate := aggregateSum
    labels := [] }

/-- Witness for C2 (amended): a numeric scalar resolves exactly, and
the RFC3339 string of the tests resolves to its Unix seconds. -/
theorem parseValue_scalar_resolution_witness :
    parseValue followersBody followersMetric = 42 ∧
    parseValue createdAtBody createdAtMetric = 1705314600 := by
  constructor
  · exact ((parseValue_scalar_resolution followersBody followersMetric
      (Json.num 42) rfl (fun ys hy => Json.noConfusion hy)).1
      (by decide)).1 42 rfl
  · exact ((parseValue_scalar_resolution createdAtBody createdAtMetric
      (Json.str "2024-01-15T10:30:00Z") rfl (fun ys hy => Json.noConfusion hy)).2
      rfl).1 "2024-01-15T10:30:00Z" 1705314600 rfl (by decide)

/-- C3: a sequence result bypasses the timestamp interpretation: for an
array extraction the resolved value is the aggregation of the elements,
and it does not depend on the declared value interpretation. -/
theorem parseValue_array_bypasses_timestamp
    (body : Body) (metric : MetricConfig) (xs : List Json)
    (h : gjsonGet body metric.path = some (Json.arr xs)) :
    parseValue body metric = aggregateList metric.aggregate xs ∧
    (∀ vt1 vt2 : String,
      parseValue body { metric with valueType := vt1 } =
        parseValue body { metric with valueType := vt2 }) := by
  constructor
  · simp [parseValue, h]
  · intro vt1 vt2
    have h1 : gjsonGet body ({ metric with valueType := vt1 } : MetricConfig).path =
        some (Json.arr xs) := h
    have h2 : gjsonGet body ({ metric with valueType := vt2 } : MetricConfig).path =
        some (Json.arr xs) := h
    simp [parseValue, h1, h2]

/-- Array of RFC3339 strings: under the timestamp interpretation a
sequence still goes through aggregation (here count). -/
def dateArrBody : Body :=
  Body.ok (Json.arr [Json.str "2024-01-15T10:30:00Z", Json.str "2024-01-14T10:30:00Z"])

/-- Metric with timestamp interpretation and count aggregation over the
whole document array. -/
def dateArrMetric : MetricConfig :=
  { name := "m"
    path := []
    help := ""
    valueType := typeDate
    aggregate := aggregateCount
    labels := [] }

/-- Witness for C3: a date-typed metric over a sequence aggregates (the
count of the two elements), ignoring the timestamp interpretation. -/
theorem parseValue_array_bypasses_timestamp_witness :
    parseValue dateArrBody dateArrMetric = 2 ∧
    parseValue dateArrBody { dateArrMetric with valueType := typeFloat } =
      parseValue dateArrBody dateArrMetric := by
  have hb := parseValue_array_bypasses_timestamp dateArrBody dateArrMetric
    [Json.str "2024-01-15T10:30:00Z", Json.str "2024-01-14T10:30:00Z"] rfl
  constructor
  · rw [hb.1]; norm_num [aggregateList, dateArrMetric, aggregateCount]
  · exact hb.2 typeFloat typeDate

/-! Pass-level lemmas. -/

/-- Value resolution on a malformed body: every path misses, so every
metric resolves to 0. -/
theorem parseValue_malformed (metric : MetricConfig) :
    parseValue Body.malformed metric = 0 := by
  rcases eq_or_ne metric.valueType typeDate with h | h <;>
    simp [parseValue, gjsonGet, h, jsonFloat]

/-- One pass step: the head request contributes first. -/
theorem collectPass_cons (metricsMap : Registry) (r : RequestConfig)
    (o : FetchOutcome) (rs : List RequestConfig) (os : List FetchOutcome) :
    collectPass metricsMap (r :: rs) (o :: os) =
      fetchAndCollect metricsMap r o ++ collectPass metricsMap rs os := rfl

/-- A pass over no requests emits nothing. -/
theorem collectPass_nil (metricsMap : Registry) (os : List FetchOutcome) :
    collectPass metricsMap [] os = [] := rfl

/-- Pass contributions split along a split of the request list. -/
theorem collectPass_append (metricsMap : Registry)
    (reqs1 reqs2 : List RequestConfig) (os1 os2 : List FetchOutcome)
    (hlen : reqs1.length = os1.length) :
    collectPass metricsMap (reqs1 ++ reqs2) (os1 ++ os2) =
      collectPass metricsMap reqs1 os1 ++ collectPass metricsMap reqs2 os2 := by
  induction reqs1 generalizing os1 with
  | nil =>
    cases os1 with
    | nil => simp [collectPass_nil]
    | cons o os => cases hlen
  | cons r rs ih =>
    cases os1 with
    | nil => cases hlen
    | cons o os =>
      simp only [List.cons_append, collectPass_cons, List.append_assoc]
      rw [ih os (by simpa using hlen)]

/-- Sample extraction from the emission loop: every emitted sample
comes from sampleFor on some configured metric, on a 2xx response with
a readable body. -/
theorem mem_fetchAndCollect (metricsMap : Registry) (r : RequestConfig)
    (o : FetchOutcome) (s : Sample) (hs : s ∈ fetchAndCollect metricsMap r o) :
    ∃ status body metric, o = FetchOutcome.response status (some body) ∧
      metric ∈ r.metrics ∧ sampleFor metricsMap body r.apiPath metric = some s := by
  cases o with
  | reqError => cases hs
  | transportError => cases hs
  | response status bodyRead =>
    cases bodyRead with
    | none =>
      have hs2 : s ∈ (if status < 200 ∨ 300 ≤ status then ([] : List Sample) else []) := hs
      by_cases hst : status < 200 ∨ 300 ≤ status
      · rw [if_pos hst] at hs2; cases hs2
      · rw [if_neg hst] at hs2; cases hs2
    | some body =>
      have hs2 : s ∈ (if status < 200 ∨ 300 ≤ status then ([] : List Sample)
          else r.metrics.filterMap (sampleFor metricsMap body r.apiPath)) := hs
      by_cases hst : status < 200 ∨ 300 ≤ status
      · rw [if_pos hst] at hs2; cases hs2
      · rw [if_neg hst] at hs2
        rcases List.mem_filterMap.mp hs2 with ⟨metric, hmem, heq⟩
        exact ⟨status, body, metric, rfl, hmem, heq⟩

/-- Structure of a sample produced by sampleFor: the registry entry is
found, the descriptor carries no error, and the fields are the resolved
value and labels. -/
theorem sampleFor_eq_some (metricsMap : Registry) (body : Body) (apiPath : String)
    (metric : MetricConfig) (s : Sample)
    (h : sampleFor metricsMap body apiPath metric = some s) :
    ∃ info, lookupName metricsMap metric.name = some info ∧
      info.desc.invalid = false ∧
      s.desc = info.desc ∧
      s.value = parseValue body metric ∧
      s.labelValues = resolveLabels body metric.labels info.labelKeys apiPath ∧
      s.labelValues.length = s.desc.variableLabels.length := by
  cases hl : lookupName metricsMap metric.name with
  | none => simp only [sampleFor, hl] at h; cases h
  | some info =>
    simp only [sampleFor, hl, newConstMetric] at h
    by_cases hinv : info.desc.invalid = true
    · rw [if_pos hinv] at h; cases h
    · rw [if_neg hinv] at h
      by_cases hlen : (resolveLabels body metric.labels info.labelKeys apiPath).length =
          info.desc.variableLabels.length
      · rw [if_pos hlen] at h
        cases h
        exact ⟨info, rfl, by simpa using hinv, rfl, rfl, rfl, hlen⟩
      · rw [if_neg hlen] at h; cases h

/-- C5: a failed fetch (request construction failure, transport
failure, non-2xx status, or body read failure) contributes no samples,
and the contributions of the remaining requests of the pass are exactly
those of a pass without the failing request. -/
theorem fetch_failure_isolation
    (metricsMap : Registry) (r : RequestConfig) (o : FetchOutcome)
    (hfail : isFailure o) :
    fetchAndCollect metricsMap r o = [] ∧
    (∀ (reqs1 reqs2 : List RequestConfig) (os1 os2 : List FetchOutcome),
      reqs1.length = os1.length →
      collectPass metricsMap (reqs1 ++ r :: reqs2) (os1 ++ o :: os2) =
        collectPass metricsMap reqs1 os1 ++ collectPass metricsMap reqs2 os2) := by
  have hempty : fetchAndCollect metricsMap r o = [] := by
    cases o with
    | reqError => rfl
    | transportError => rfl
    | response status bodyRead =>
      cases bodyRead with
      | none =>
        show (if status < 200 ∨ 300 ≤ status then ([] : List Sample) else []) = []
        exact ite_self []
      | some body =>
        have hst : status < 200 ∨ 300 ≤ status := by
          rcases hfail with h | h | h
          · exact Or.inl h
          · exact Or.inr h
          · cases h
        show (if status < 200 ∨ 300 ≤ status then ([] : List Sample)
            else r.metrics.filterMap (sampleFor metricsMap body r.apiPath)) = []
        rw [if_pos hst]
  refine ⟨hempty, fun reqs1 reqs2 os1 os2 hlen => ?_⟩
  rw [collectPass_append metricsMap reqs1 (r :: reqs2) os1 (o :: os2) hlen,
    collectPass_cons, hempty, List.nil_append]

/-- Request of the two-request fault-isolation scenario that succeeds. -/
def goodReq : RequestConfig :=
  { apiPath := "/users/test", method := "", body := "", metrics := [followersMetric] }

/-- Request of the two-request fault-isolation scenario whose fetch
returns HTTP 500. -/
def badReq : RequestConfig :=
  { apiPath := "/users/other", method := "", body := "", metrics := [followersMetric] }

/-- Registry of the two-request fault-isolation scenario. -/
def demo5Map : Registry :=
  initDescriptors { githubAPIURL := "", token := "", requests := [badReq, goodReq] }

/-- Witness for C5: with one request answering 500 and one answering
200, the failing request contributes nothing, the pass equals the pass
over the succeeding request alone, and that request emits its full
sample set (one sample). -/
theorem fetch_failure_isolation_witness :
    fetchAndCollect demo5Map badReq (FetchOutcome.response 500 (some followersBody)) = [] ∧
    collectPass demo5Map [badReq, goodReq]
        [FetchOutcome.response 500 (some followersBody),
         FetchOutcome.response 200 (some followersBody)] =
      collectPass demo5Map [goodReq] [FetchOutcome.response 200 (some followersBody)] ∧
    (collectPass demo5Map [goodReq]
        [FetchOutcome.response 200 (some followersBody)]).length = 1 := by
  have h := fetch_failure_isolation demo5Map badReq
    (FetchOutcome.response 500 (some followersBody)) (Or.inr (Or.inl (by norm_num)))
  refine ⟨h.1, ?_, ?_⟩
  · have h2 := h.2 [] [goodReq] []
      [FetchOutcome.response 200 (some followersBody)] rfl
    simpa using h2
  · decide

/-- Request of the malformed-body scenario. -/
def malformedReq : RequestConfig :=
  { apiPath := "/users/test", method := "", body := "", metrics := [followersMetric] }

/-- Configuration of the malformed-body scenario. -/
def malformedCfg : Config :=
  { githubAPIURL := "", token := "", requests := [malformedReq] }

/-- Counterexample to C4 as stated: a 200 response whose body is not
JSON does not skip the metrics of the request - the pass still emits
one sample for the configured metric (with value 0), not zero
samples. -/
theorem malformed_body_claim_counterexample :
    (collectPass (initDescriptors malformedCfg) malformedCfg.requests
        [FetchOutcome.response 200 (some Body.malformed)]).length = 1 := by
  decide

/-- C4 (amended): a malformed response body does not cause a
request-scoped skip.  Every gjson lookup misses, so each metric of the
request whose descriptor is registered and valid still emits a sample;
all such samples carry value 0 and label values that are either the
request identity or empty; other requests of the pass are unaffected. -/
theorem malformed_body_emission (metricsMap : Registry) (r : RequestConfig) :
    (∀ s ∈ fetchAndCollect metricsMap r
        (FetchOutcome.response 200 (some Body.malformed)),
      s.value = 0 ∧ ∀ v ∈ s.labelValues, v = r.apiPath ∨ v = "") ∧
    (∀ metric ∈ r.metrics, ∀ info, lookupName metricsMap metric.name = some info →
      info.desc.invalid = false →
      info.labelKeys.length = info.desc.variableLabels.length →
      (sampleFor metricsMap Body.malformed r.apiPath metric).isSome = true) ∧
    (∀ (reqs1 reqs2 : List RequestConfig) (os1 os2 : List FetchOutcome),
      reqs1.length = os1.length →
      collectPass metricsMap (reqs1 ++ r :: reqs2)
          (os1 ++ FetchOutcome.response 200 (some Body.malformed) :: os2) =
        collectPass metricsMap reqs1 os1 ++
          (fetchAndCollect metricsMap r (FetchOutcome.response 200 (some Body.malformed)) ++
            collectPass metricsMap reqs2 os2)) := by
  refine ⟨fun s hs => ?_, fun metric hmem info hl hinv hlen => ?_, fun reqs1 reqs2 os1 os2 hlen => ?_⟩
  · rcases mem_fetchAndCollect _ _ _ _ hs with ⟨status, body2, metric, heq, hmem, hsf⟩
    have hbody : body2 = Body.malformed := by
      injection heq with h1 h2
      injection h2 with h3
      exact h3.symm
    subst hbody
    rcases sampleFor_eq_some _ _ _ _ _ hsf with ⟨info, hl, hinv, hdesc, hval, hlab, hlen⟩
    refine ⟨hval.trans (parseValue_malformed metric), fun v hv => ?_⟩
    rw [hlab] at hv
    rcases List.mem_map.mp hv with ⟨key, hkey, hfv⟩
    by_cases hap : key = "api_path"
    · left; rw [← hfv]; simp [hap]
    · right; rw [← hfv]
      simp only [if_neg hap]
      cases labelPath metric.labels key with
      | none => rfl
      | some p => rfl
  · simp only [sampleFor, hl, newConstMetric]
    rw [if_neg (by simp [hinv])]
    rw [if_pos (by simp [resolveLabels]; exact hlen)]
    rfl
  · rw [collectPass_append metricsMap reqs1 (r :: reqs2) os1 (_ :: os2) hlen,
      collectPass_cons]

/-- Witness for C4 (amended): in the malformed-body scenario the
configured metric still produces a sample. -/
theorem malformed_body_emission_witness :
    (sampleFor (initDescriptors malformedCfg) Body.malformed "/users/test"
        followersMetric).isSome = true := by
  exact (malformed_body_emission (initDescriptors malformedCfg) malformedReq).2.1
    followersMetric (by decide) (mkInfo followersMetric) (by rfl) (by decide) (by decide)

/-- C6: label values align positionally with the label keys: the
resolved list always has the length of the key list, the position of
the reserved key "api_path" always carries the request identity path
(for every body, hence never derived from the document), every other
position carries the stringified extraction of that label's declared
path (empty when no path is declared), and every emitted sample has as
many label values as its descriptor has label names. -/
theorem label_resolution_alignment
    (body : Body) (labels : List (String × GPath)) (labelKeys : List String)
    (apiPath : String) :
    (resolveLabels body labels labelKeys apiPath).length = labelKeys.length ∧
    (∀ (i : Nat) (hi : i < labelKeys.length)
        (hi2 : i < (resolveLabels body labels labelKeys apiPath).length),
      (labelKeys[i] = "api_path" →
        (resolveLabels body labels labelKeys apiPath)[i] = apiPath) ∧
      (labelKeys[i] ≠ "api_path" →
        (resolveLabels body labels labelKeys apiPath)[i] =
          (match labelPath labels labelKeys[i] with
           | some p => jsonString (gjsonGet body p)
           | none => ""))) ∧
    (∀ (metricsMap : Registry) (r : RequestConfig) (o : FetchOutcome),
      ∀ s ∈ fetchAndCollect metricsMap r o,
        s.labelValues.length = s.desc.variableLabels.length) := by
  refine ⟨by simp [resolveLabels], fun i hi hi2 => ⟨fun hkey => ?_, fun hkey => ?_⟩,
    fun metricsMap r o s hs => ?_⟩
  · simp only [resolveLabels, List.getElem_map]
    rw [if_pos hkey]
  · simp only [resolveLabels, List.getElem_map]
    rw [if_neg hkey]
  · rcases mem_fetchAndCollect metricsMap r o s hs with ⟨status, body2, metric, _, _, hsf⟩
    rcases sampleFor_eq_some metricsMap body2 r.apiPath metric s hsf with
      ⟨info, _, _, _, _, _, hlen⟩
    exact hlen

/-- Events document of the label scenario of the tests. -/
def pushBody : Body :=
  Body.ok (Json.arr
    [Json.obj [("type", Json.str "PushEvent"),
               ("repo", Json.obj [("name", Json.str "user/repo1")]),
               ("created_at", Json.str "2024-01-15T10:30:00Z")],
     Json.obj [("type", Json.str "IssueEvent"),
               ("repo", Json.obj [("name", Json.str "user/repo2")]),
               ("created_at", Json.str "2024-01-14T10:30:00Z")]])

/-- Label declarations of the label scenario: repo and type come from
first-match queries. -/
def pushLabels : List (String × GPath) :=
  [("repo", [Seg.queryFirst "type" "PushEvent", Seg.fld "repo", Seg.fld "name"]),
   ("type", [Seg.queryFirst "type" "PushEvent", Seg.fld "type"])]

/-- Sorted label keys of the label scenario. -/
def pushKeys : List String := ["api_path", "repo", "type"]

/-- Witness for C6: in the label scenario the resolved values align
with the three keys, position 0 carries the request identity, and the
repo position carries the stringified first-match extraction. -/
theorem label_resolution_alignment_witness :
    (resolveLabels pushBody pushLabels pushKeys "/users/test/events").length = 3 ∧
    (resolveLabels pushBody pushLabels pushKeys "/users/test/events").get
        ⟨0, by decide⟩ = "/users/test/events" ∧
    (resolveLabels pushBody pushLabels pushKeys "/users/test/events").get
        ⟨1, by decide⟩ = "user/repo1" := by
  have h := label_resolution_alignment pushBody pushLabels pushKeys "/users/test/events"
  refine ⟨h.1.trans (by rfl), ?_, ?_⟩
  · exact (h.2.1 0 (by decide) (by decide)).1 (by rfl)
  · have h2 := (h.2.1 1 (by decide) (by decide)).2 (by decide)
    exact h2.trans (by rfl)

/-! Registry lemmas. -/

/-- Projection of the registry keys. -/
def registryKeys (m : Registry) : List String := m.map (fun e => e.1)

theorem lookupName_replace_ne (m : Registry) (k : String) (v : MetricInfo)
    (k2 : String) (h : k ≠ k2) :
    lookupName (m.map (fun e => if e.1 = k then (k, v) else e)) k2 = lookupName m k2 := by
  induction m with
  | nil => rfl
  | cons e rest ih =>
    by_cases he : e.1 = k
    · have h2 : ¬ (k = k2) := h
      rw [List.map_cons, if_pos he]
      simp only [lookupName]
      rw [if_neg h2, if_neg (fun hh => h (he.symm.trans hh)), ih]
    · rw [List.map_cons, if_neg he]
      simp only [lookupName]
      by_cases h3 : e.1 = k2
      · rw [if_pos h3, if_pos h3]
      · rw [if_neg h3, if_neg h3, ih]

theorem lookupName_replace_eq (m : Registry) (k : String) (v : MetricInfo) :
    lookupName (m.map (fun e => if e.1 = k then (k, v) else e)) k =
      if (lookupName m k).isSome then some v else none := by
  induction m with
  | nil => rfl
  | cons e rest ih =>
    by_cases he : e.1 = k
    · rw [List.map_cons, if_pos he]
      simp [lookupName, he]
    · rw [List.map_cons, if_neg he]
      simp only [lookupName, if_neg he]
      exact ih

theorem lookupName_append_single (m : Registry) (k : String) (v : MetricInfo)
    (k2 : String) :
    lookupName (m ++ [(k, v)]) k2 =
      (match lookupName m k2 with
       | some r => some r
       | none => if k = k2 then some v else none) := by
  induction m with
  | nil => rfl
  | cons e rest ih =>
    by_cases he : e.1 = k2
    · simp [lookupName, he]
    · simp only [List.cons_append, lookupName, if_neg he]
      exact ih

/-- Go map assignment: a later write at the same key shadows, a write
at a fresh key extends, and lookups at other keys are untouched. -/
theorem lookupName_insertGo (m : Registry) (k : String) (v : MetricInfo) (k2 : String) :
    lookupName (insertGo m k v) k2 = if k = k2 then some v else lookupName m k2 := by
  unfold insertGo
  by_cases hk : (lookupName m k).isSome
  · rw [if_pos hk]
    by_cases h2 : k = k2
    · subst h2; rw [if_pos rfl, lookupName_replace_eq, if_pos hk]
    · rw [if_neg h2, lookupName_replace_ne m k v k2 h2]
  · rw [if_neg hk, lookupName_append_single]
    by_cases h2 : k = k2
    · subst h2
      rw [Option.not_isSome_iff_eq_none] at hk
      rw [hk, if_pos rfl]
    · cases hlk : lookupName m k2 with
      | some r => simp [h2]
      | none => simp [h2]

theorem lookupName_eq_none_iff (m : Registry) (k : String) :
    lookupName m k = none ↔ k ∉ registryKeys m := by
  induction m with
  | nil => simp [lookupName, registryKeys]
  | cons e rest ih =>
    by_cases he : e.1 = k
    · simp [lookupName, registryKeys, if_pos he, he]
    · simp only [registryKeys] at ih ⊢
      simp only [lookupName, if_neg he, List.map_cons, List.mem_cons, ih]
      constructor
      · rintro h (h1 | h2)
        · exact he h1.symm
        · exact h h2
      · exact fun h h2 => h (Or.inr h2)

theorem registryKeys_insertGo (m : Registry) (k : String) (v : MetricInfo) :
    registryKeys (insertGo m k v) =
      if (lookupName m k).isSome then registryKeys m else registryKeys m ++ [k] := by
  unfold insertGo
  by_cases hk : (lookupName m k).isSome
  · rw [if_pos hk, if_pos hk]
    simp only [registryKeys, List.map_map]
    refine List.map_congr_left (fun e _ => ?_)
    by_cases he : e.1 = k
    · simp [Function.comp, if_pos he, he]
    · simp [Function.comp, if_neg he]
  · rw [if_neg hk, if_neg hk]
    simp [registryKeys]

theorem registryKeys_nodup_insertGo (m : Registry) (k : String) (v : MetricInfo)
    (h : (registryKeys m).Nodup) : (registryKeys (insertGo m k v)).Nodup := by
  rw [registryKeys_insertGo]
  by_cases hk : (lookupName m k).isSome
  · rw [if_pos hk]; exact h
  · rw [if_neg hk]
    rw [Option.not_isSome_iff_eq_none, lookupName_eq_none_iff] at hk
    simp [List.nodup_append, h, List.disjoint_singleton, hk]

theorem flatDecls_foldl_acc (reqs : List RequestConfig) (acc : List MetricConfig) :
    reqs.foldl (fun a req => a ++ req.metrics) acc =
      acc ++ reqs.foldl (fun a req => a ++ req.metrics) [] := by
  induction reqs generalizing acc with
  | nil => simp
  | cons r rest ih =>
    simp only [List.foldl_cons]
    rw [ih (acc ++ r.metrics), ih ([] ++ r.metrics), List.nil_append, List.append_assoc]

/-- The nested initialization loop equals a single fold over the
flattened declaration list. -/
theorem initDescriptors_eq_foldl (cfg : Config) :
    initDescriptors cfg =
      (flatDecls cfg).foldl (fun m mc => insertGo m mc.name (mkInfo mc)) [] := by
  unfold initDescriptors flatDecls
  generalize ([] : Registry) = m0
  induction cfg.requests generalizing m0 with
  | nil => rfl
  | cons r rest ih =>
    simp only [List.foldl_cons]
    rw [ih (r.metrics.foldl (fun m metric => insertGo m metric.name (mkInfo metric)) m0),
      flatDecls_foldl_acc rest ([] ++ r.metrics), List.nil_append, List.foldl_append]

/-- Lookup after the initialization fold: the most recently processed
declaration of a name wins. -/
theorem lookupName_foldl_insert (decls : List MetricConfig) (m0 : Registry) (k : String) :
    lookupName (decls.foldl (fun m mc => insertGo m mc.name (mkInfo mc)) m0) k =
      (match lastDecl decls k with
       | some d => some (mkInfo d)
       | none => lookupName m0 k) := by
  induction decls generalizing m0 with
  | nil => simp [lastDecl]
  | cons mc rest ih =>
    simp only [List.foldl_cons, lastDecl]
    rw [ih (insertGo m0 mc.name (mkInfo mc))]
    cases hld : lastDecl rest k with
    | some d => rfl
    | none =>
      by_cases hname : mc.name = k
      · simp [hname, lookupName_insertGo]
      · simp [hname, lookupName_insertGo]

/-- A winning declaration is one of the processed declarations. -/
theorem lastDecl_mem (decls : List MetricConfig) (k : String) (d : MetricConfig)
    (h : lastDecl decls k = some d) : d ∈ decls ∧ d.name = k := by
  induction decls with
  | nil => cases h
  | cons mc rest ih =>
    simp only [lastDecl] at h
    cases hld : lastDecl rest k with
    | some d2 =>
      rw [hld] at h
      injection h with h2
      subst h2
      rcases ih hld with ⟨hmem, hname⟩
      exact ⟨List.mem_cons_of_mem mc hmem, hname⟩
    | none =>
      rw [hld] at h
      by_cases hname : mc.name = k
      · rw [if_pos hname] at h
        injection h with h2
        subst h2
        exact ⟨List.mem_cons_self mc rest, hname⟩
      · rw [if_neg hname] at h
        cases h

/-- Keys of the registry stay duplicate-free through the fold. -/
theorem registryKeys_nodup_foldl (decls : List MetricConfig) (m0 : Registry)
    (h : (registryKeys m0).Nodup) :
    (registryKeys (decls.foldl (fun m mc => insertGo m mc.name (mkInfo mc)) m0)).Nodup := by
  induction decls generalizing m0 with
  | nil => exact h
  | cons mc rest ih =>
    simp only [List.foldl_cons]
    exact ih (insertGo m0 mc.name (mkInfo mc)) (registryKeys_nodup_insertGo m0 mc.name _ h)

/-- C8: after initialization, looking a metric name up in the registry
finds exactly the most recently processed declaration of that name
(mapped to its derived entry), and the registry holds one entry per
distinct name. -/
theorem registry_last_declaration_wins (cfg : Config) (name : String) :
    lookupName (initDescriptors cfg) name =
      (match lastDecl (flatDecls cfg) name with
       | some d => some (mkInfo d)
       | none => none) ∧
    (registryKeys (initDescriptors cfg)).Nodup := by
  constructor
  · rw [initDescriptors_eq_foldl, lookupName_foldl_insert]
    cases lastDecl (flatDecls cfg) name with
    | some d => rfl
    | none => rfl
  · rw [initDescriptors_eq_foldl]
    exact registryKeys_nodup_foldl (flatDecls cfg) [] (by simp [registryKeys])

/-- Collect never writes the manager: the state after any sequence of
passes is the state built by NewManager. -/
theorem runPasses_state (m : Manager) (passes : List (List FetchOutcome)) :
    (runPasses m passes).2 = m := by
  induction passes with
  | nil => rfl
  | cons os rest ih => simp [runPasses, collect, ih]

/-- C7: the label-name list of every derived descriptor is the sorted
union of the reserved name "api_path" with the declared label names
(sorted lexicographically, as a permutation in general and as the exact
sorted duplicate-free union whenever no declared label collides with
the reserved name), and the registry is built once by NewManager: after
any sequence of collection passes the manager, and in particular its
descriptor registry, is untouched. -/
theorem descriptor_registry_stability (cfg : Config) :
    (∀ metric : MetricConfig,
      (mkLabelKeys metric).Sorted (fun a b => a ≤ b) ∧
      (mkLabelKeys metric).Perm ("api_path" :: labelNames metric) ∧
      ("api_path" ∉ labelNames metric → (labelNames metric).Nodup →
        (mkLabelKeys metric).Nodup ∧
        (mkLabelKeys metric).toFinset =
          insert "api_path" (labelNames metric).toFinset)) ∧
    (∀ passes : List (List FetchOutcome),
      (runPasses (newManager cfg) passes).2 = newManager cfg ∧
      (runPasses (newManager cfg) passes).2.metrics = initDescriptors cfg) := by
  constructor
  · intro metric
    have hperm : (mkLabelKeys metric).Perm ("api_path" :: labelNames metric) :=
      List.perm_insertionSort _ _
    refine ⟨List.sorted_insertionSort _ _, hperm, fun hnc hnd => ?_⟩
    constructor
    · exact hperm.nodup_iff.mpr (List.nodup_cons.mpr ⟨hnc, hnd⟩)
    · rw [List.toFinset_eq_of_perm _ _ hperm, List.toFinset_cons]
  · intro passes
    refine ⟨runPasses_state (newManager cfg) passes, ?_⟩
    rw [runPasses_state (newManager cfg) passes]
    rfl

/-- Metric of the label scenario: last push timestamp with repo and
type labels. -/
def pushMetric : MetricConfig :=
  { name := "github_last_push_info"
    path := [Seg.queryFirst "type" "PushEvent", Seg.fld "created_at"]
    help := "Last push event"
    valueType := typeDate
    aggregate := aggregateSum
    labels := pushLabels }

/-- Witness for C7: the label scenario metric derives the label list
as the sorted duplicate-free union, and the registry is unchanged after
two passes. -/
theorem descriptor_registry_stability_witness :
    (mkLabelKeys pushMetric).Nodup ∧
    (mkLabelKeys pushMetric).toFinset =
      insert "api_path" (labelNames pushMetric).toFinset ∧
    (runPasses (newManager malformedCfg) [[FetchOutcome.reqError], []]).2.metrics =
      initDescriptors malformedCfg := by
  have h := descriptor_registry_stability malformedCfg
  have h2 := (h.1 pushMetric).2.2 (by decide) (by decide)
  exact ⟨h2.1, h2.2, (h.2 [[FetchOutcome.reqError], []]).2⟩

/-- A declared label path is declared under a declared label name. -/
theorem labelPath_some_mem (labels : List (String × GPath)) (k : String) (p : GPath)
    (h : labelPath labels k = some p) : k ∈ labels.map (fun e => e.1) := by
  induction labels with
  | nil => cases h
  | cons e rest ih =>
    simp only [labelPath] at h
    by_cases he : e.1 = k
    · simp [he]
    · rw [if_neg he] at h
      exact List.mem_cons_of_mem _ (ih h)

/-- C10: a declared label named like the reserved label "api_path"
makes the derived label list contain that name twice, the descriptor
carries a construction error, so sample construction fails and the
metric emits no sample on any pass; and label resolution never consults
the colliding declared path (it only reads declared paths of keys other
than the reserved name). -/
theorem reserved_label_collision
    (metric : MetricConfig) (p : GPath)
    (hp : labelPath metric.labels "api_path" = some p)
    (hnd : (labelNames metric).Nodup) :
    (mkLabelKeys metric).count "api_path" = 2 ∧
    (mkInfo metric).desc.invalid = true ∧
    (∀ (metricsMap : Registry) (body : Body) (apiPath : String),
      lookupName metricsMap metric.name = some (mkInfo metric) →
      sampleFor metricsMap body apiPath metric = none) ∧
    (∀ (body : Body) (labelKeys : List String) (apiPath : String)
        (labels2 : List (String × GPath)),
      (∀ k, k ≠ "api_path" → labelPath metric.labels k = labelPath labels2 k) →
      resolveLabels body metric.labels labelKeys apiPath =
        resolveLabels body labels2 labelKeys apiPath) := by
  have hmem : "api_path" ∈ labelNames metric :=
    labelPath_some_mem metric.labels "api_path" p hp
  have hcount : (mkLabelKeys metric).count "api_path" = 2 := by
    have hperm : (mkLabelKeys metric).Perm ("api_path" :: labelNames metric) :=
      List.perm_insertionSort _ _
    rw [hperm.count_eq, List.count_cons_self]
    have hle : (labelNames metric).count "api_path" ≤ 1 :=
      List.nodup_iff_count_le_one.mp hnd "api_path"
    have hge : 0 < (labelNames metric).count "api_path" :=
      List.count_pos_iff.mpr hmem
    omega
  have hnodup : ¬ (mkLabelKeys metric).Nodup := by
    intro hnd2
    have := List.nodup_iff_count_le_one.mp hnd2 "api_path"
    omega
  have hinv : (mkInfo metric).desc.invalid = true := by
    simp only [mkInfo, newDesc, decide_eq_true_eq]
    rintro ⟨-, -, hn⟩
    exact hnodup hn
  refine ⟨hcount, hinv, fun metricsMap body apiPath hl => ?_,
    fun body labelKeys apiPath labels2 hagree => ?_⟩
  · simp only [sampleFor, hl, newConstMetric, hinv, if_true]
  · unfold resolveLabels
    refine List.map_congr_left (fun key _ => ?_)
    by_cases hk : key = "api_path"
    · rw [if_pos hk, if_pos hk]
    · rw [if_neg hk, if_neg hk, hagree key hk]

/-- Metric declaring a label that collides with the reserved name. -/
def collideMetric : MetricConfig :=
  { name := "m"
    path := [Seg.fld "a"]
    help := ""
    valueType := typeFloat
    aggregate := aggregateSum
    labels := [("api_path", [Seg.fld "x"])] }

/-- Witness for C10: the colliding metric has the reserved name twice
in its label list, an erroring descriptor, and emits no sample. -/
theorem reserved_label_collision_witness :
    (mkLabelKeys collideMetric).count "api_path" = 2 ∧
    (mkInfo collideMetric).desc.invalid = true ∧
    sampleFor [("m", mkInfo collideMetric)] (Body.ok Json.null) "/p" collideMetric =
      none := by
  have h := reserved_label_collision collideMetric [Seg.fld "x"] (by rfl) (by decide)
  exact ⟨h.1, h.2.1, h.2.2.1 [("m", mkInfo collideMetric)] (Body.ok Json.null) "/p" rfl⟩

/-! Concurrency model of Collect (manager.go lines 81-97): one worker
task per RequestSpec, all started up front behind a WaitGroup, each
acquiring one permit from a channel of capacity 5 before its fetch and
releasing it afterwards; Collect returns at wg.Wait, after every task
finished.  A task state is pending (spawned, waiting for a permit),
inFlight (holding a permit, fetch in progress) or done (permit
released, its samples - possibly none - accounted for). -/

/-- State of one worker task of a pass. -/
inductive TaskState where
  | pending : TaskState
  | inFlight : TaskState
  | done : TaskState
deriving DecidableEq, Repr

/-- Pool state at the start of a pass with r requests. -/
def startPool (r : Nat) : List TaskState := List.replicate r TaskState.pending

/-- Transitions of the permit pool with capacity `cap`: a pending task
may enter flight while fewer than `cap` tasks hold permits (a channel
send that does not block), and a task in flight may finish at any time,
releasing its permit. -/
inductive PoolStep (cap : Nat) : List TaskState → List TaskState → Prop where
  | acquire (ts : List TaskState) (i : Nat) (h : i < ts.length)
      (hp : ts.get ⟨i, h⟩ = TaskState.pending)
      (hc : ts.count TaskState.inFlight < cap) :
      PoolStep cap ts (ts.set i TaskState.inFlight)
  | finish (ts : List TaskState) (i : Nat) (h : i < ts.length)
      (hf : ts.get ⟨i, h⟩ = TaskState.inFlight) :
      PoolStep cap ts (ts.set i TaskState.done)

/-- Pool states reachable during one pass over r requests, with the
capacity 5 the implementation hardcodes. -/
def poolReachable (r : Nat) (ts : List TaskState) : Prop :=
  Relation.ReflTransGen (PoolStep 5) (startPool r) ts

/-- Termination measure of a pass. -/
def poolMeasure (ts : List TaskState) : Nat :=
  2 * ts.count TaskState.pending + ts.count TaskState.inFlight

/-- Counting after a point update. -/
theorem count_set_add (ts : List TaskState) (i : Nat) (h : i < ts.length)
    (v x : TaskState) :
    (ts.set i v).count x + (if ts.get ⟨i, h⟩ = x then 1 else 0) =
      ts.count x + (if v = x then 1 else 0) := by
  induction ts generalizing i with
  | nil => cases h
  | cons a rest ih =>
    cases i with
    | zero =>
      simp only [List.set_cons_zero, List.get, List.count_cons, beq_iff_eq]
      omega
    | succ n =>
      have h2 : n < rest.length := by simpa using h
      have ihh := ih n h2
      simp only [List.set_cons_succ, List.get, List.count_cons, beq_iff_eq]
      omega

theorem poolStep_length (cap : Nat) (ts ts2 : List TaskState)
    (h : PoolStep cap ts ts2) : ts2.length = ts.length := by
  cases h with
  | acquire i hi hp hc => exact List.length_set ts i TaskState.inFlight
  | finish i hi hf => exact List.length_set ts i TaskState.done

theorem poolStep_inFlight (cap : Nat) (ts ts2 : List TaskState)
    (h : PoolStep cap ts ts2) (hb : ts.count TaskState.inFlight ≤ cap) :
    ts2.count TaskState.inFlight ≤ cap := by
  cases h with
  | acquire i hi hp hc =>
    have hset := count_set_add ts i hi TaskState.inFlight TaskState.inFlight
    rw [hp] at hset
    simp at hset
    omega
  | finish i hi hf =>
    have hset := count_set_add ts i hi TaskState.done TaskState.inFlight
    rw [hf] at hset
    simp at hset
    omega

theorem poolStep_measure (cap : Nat) (ts ts2 : List TaskState)
    (h : PoolStep cap ts ts2) : poolMeasure ts2 < poolMeasure ts := by
  unfold poolMeasure
  cases h with
  | acquire i hi hp hc =>
    have hsp := count_set_add ts i hi TaskState.inFlight TaskState.pending
    have hsf := count_set_add ts i hi TaskState.inFlight TaskState.inFlight
    rw [hp] at hsp hsf
    simp at hsp hsf
    omega
  | finish i hi hf =>
    have hsp := count_set_add ts i hi TaskState.done TaskState.pending
    have hsf := count_set_add ts i hi TaskState.done TaskState.inFlight
    rw [hf] at hsp hsf
    simp at hsp hsf
    omega

/-- Progress: a pool with an unfinished task can always step. -/
theorem pool_progress (ts : List TaskState) (t : TaskState) (htmem : t ∈ ts)
    (htne : t ≠ TaskState.done) : ∃ ts2, PoolStep 5 ts ts2 := by
  rcases List.mem_iff_get.mp htmem with ⟨⟨i, hi⟩, hget⟩
  cases t with
  | done => exact absurd rfl htne
  | inFlight =>
    exact ⟨ts.set i TaskState.done, PoolStep.finish ts i hi hget⟩
  | pending =>
    by_cases hc : ts.count TaskState.inFlight < 5
    · exact ⟨ts.set i TaskState.inFlight, PoolStep.acquire ts i hi hget hc⟩
    · have hpos : 0 < ts.count TaskState.inFlight := by omega
      rcases List.mem_iff_get.mp (List.count_pos_iff.mp hpos) with ⟨⟨j, hj⟩, hgj⟩
      exact ⟨ts.set j TaskState.done, PoolStep.finish ts j hj hgj⟩

theorem pool_inFlight_bound (r : Nat) (ts : List TaskState)
    (h : poolReachable r ts) : ts.count TaskState.inFlight ≤ 5 := by
  induction h with
  | refl => simp [startPool, List.count_replicate]
  | tail hsteps hstep ih => exact poolStep_inFlight 5 _ _ hstep ih

theorem pool_length (r : Nat) (ts : List TaskState)
    (h : poolReachable r ts) : ts.length = r := by
  induction h with
  | refl => simp [startPool]
  | tail hsteps hstep ih => rw [poolStep_length 5 _ _ hstep, ih]

/-- C9: during any pass over r requests, every reachable state of the
permit pool has at most 5 fetches in flight; the pool always covers all
r requests; a state from which no transition is possible (where
wg.Wait unblocks and Collect returns) has every request accounted for
(done); and every transition strictly decreases the pass measure, so
every pass reaches such a state. -/
theorem bounded_concurrency (r : Nat) (ts : List TaskState)
    (h : poolReachable r ts) :
    ts.count TaskState.inFlight ≤ 5 ∧
    ts.length = r ∧
    ((∀ ts2, ¬ PoolStep 5 ts ts2) → ∀ t ∈ ts, t = TaskState.done) ∧
    (∀ ts2, PoolStep 5 ts ts2 → poolMeasure ts2 < poolMeasure ts) := by
  refine ⟨pool_inFlight_bound r ts h, pool_length r ts h, fun hstuck t htmem => ?_,
    fun ts2 hstep => poolStep_measure 5 ts ts2 hstep⟩
  by_contra htne
  rcases pool_progress ts t htmem htne with ⟨ts2, hstep⟩
  exact hstuck ts2 hstep

/-- Witness for C9 at r = 7 and the reachable state after one permit
acquisition: one fetch in flight, never more than five, all seven tasks
present. -/
theorem bounded_concurrency_witness :
    ((startPool 7).set 0 TaskState.inFlight).count TaskState.inFlight ≤ 5 ∧
    ((startPool 7).set 0 TaskState.inFlight).length = 7 := by
  have hreach : poolReachable 7 ((startPool 7).set 0 TaskState.inFlight) :=
    Relation.ReflTransGen.single
      (PoolStep.acquire (startPool 7) 0 (by decide) (by decide) (by decide))
  have h := bounded_concurrency 7 ((startPool 7).set 0 TaskState.inFlight) hreach
  exact ⟨h.1, h.2.1⟩
